import Mathlib

/-!
Shallow embedding of the aggregation / period-comparison logic of
`report.py` (a pandas + streamlit weekly reporting script), together with
proofs and refutations of the specification's claims about it.

Conventions of the embedding:
* a spreadsheet cell is a `Value` (`null` models an empty cell / `NaN`
  produced by `pd.read_excel`);
* float arithmetic as pandas performs it is modelled by `PVal`, rationals
  extended with `nan` and the two infinities, with the IEEE propagation
  rules for the operations the script uses (`-`, `*`, `/`, rounding);
* a `Record` is one row of an uploaded sheet, with exactly the columns
  `report.py` touches; a dataset is a `List Record`;
* `df.groupby(keys)[measure].sum()` is embedded by `aggregate`:
  rows whose key is null are dropped (pandas `dropna=True` default),
  unparseable measures are coerced to `nan` by `pd.to_numeric(errors="coerce")`
  and skipped by the sum (`skipna=True` default, empty/all-nan group sums
  to 0), and the group keys come out sorted ascending (`sort=True` default).
-/

/-!
Rational arithmetic helpers.  Mathlib marks the `Rat` field operations
`@[irreducible]`, which blocks `decide`-style evaluation of concrete
tables; the operations below compute the same rationals through `mkRat` /
`Rat.divInt`, which do reduce, and each one is proved equal to the
corresponding field operation so the theorems can use ordinary algebra.
-/

/-- Kernel-evaluable addition on `ℚ`. -/
def qadd (a b : ℚ) : ℚ := mkRat (a.num * b.den + b.num * a.den) (a.den * b.den)

/-- Kernel-evaluable subtraction on `ℚ`. -/
def qsub (a b : ℚ) : ℚ := mkRat (a.num * b.den - b.num * a.den) (a.den * b.den)

/-- Kernel-evaluable multiplication on `ℚ`. -/
def qmul (a b : ℚ) : ℚ := mkRat (a.num * b.num) (a.den * b.den)

/-- Kernel-evaluable division on `ℚ` (0 on a zero divisor, like `/`). -/
def qdiv (a b : ℚ) : ℚ := Rat.divInt (a.num * b.den) (a.den * b.num)

/-- Kernel-evaluable integer cast into `ℚ`. -/
def qOfInt (z : ℤ) : ℚ := mkRat z 1

/-- Kernel-evaluable floor of a rational. -/
def ratFloor (q : ℚ) : ℤ := q.num.fdiv (q.den : ℤ)

/-- Kernel-evaluable sum of a list of rationals. -/
def qsum (l : List ℚ) : ℚ := l.foldr qadd 0

theorem num_eq_mul_den (a : ℚ) : (a.num : ℚ) = a * a.den :=
  (div_eq_iff (by positivity)).mp (Rat.num_div_den a)

@[simp] theorem qadd_eq (a b : ℚ) : qadd a b = a + b := by
  rw [qadd, Rat.mkRat_eq_div]
  push_cast
  rw [div_eq_iff (by positivity), num_eq_mul_den a, num_eq_mul_den b]
  ring

@[simp] theorem qsub_eq (a b : ℚ) : qsub a b = a - b := by
  rw [qsub, Rat.mkRat_eq_div]
  push_cast
  rw [div_eq_iff (by positivity), num_eq_mul_den a, num_eq_mul_den b]
  ring

@[simp] theorem qmul_eq (a b : ℚ) : qmul a b = a * b := by
  rw [qmul, Rat.mkRat_eq_div]
  push_cast
  rw [div_eq_iff (by positivity), num_eq_mul_den a, num_eq_mul_den b]
  ring

@[simp] theorem qdiv_eq (a b : ℚ) : qdiv a b = a / b := by
  have ha : (a.den : ℚ) ≠ 0 := by positivity
  rw [qdiv, Rat.divInt_eq_div]
  push_cast
  by_cases hbz : b = 0
  · subst hbz; simp
  · have hbn : (b.num : ℚ) ≠ 0 := by simpa using Rat.num_ne_zero.mpr hbz
    rw [div_eq_div_iff (by exact mul_ne_zero ha hbn) hbz,
      num_eq_mul_den a, num_eq_mul_den b]
    ring

@[simp] theorem qOfInt_eq (z : ℤ) : qOfInt z = (z : ℚ) := by
  rw [qOfInt, Rat.mkRat_eq_div]; simp

@[simp] theorem ratFloor_eq (q : ℚ) : ratFloor q = ⌊q⌋ := by
  rw [ratFloor, Rat.floor_def, Int.fdiv_eq_ediv _ (by positivity)]

@[simp] theorem qsum_eq (l : List ℚ) : qsum l = l.sum := by
  induction l with
  | nil => rfl
  | cons x xs ih => simp [qsum, List.foldr_cons] at ih ⊢; simp [ih]

/-- Pandas float values: a rational number, `NaN`, or an infinity. -/
inductive PVal where
  | num (q : ℚ)
  | nan
  | pinf
  | ninf
deriving DecidableEq, Repr

/-- Subtraction with IEEE propagation (`NaN` absorbs, `inf - inf = NaN`). -/
def PVal.sub : PVal → PVal → PVal
  | nan, _ => nan
  | _, nan => nan
  | pinf, pinf => nan
  | pinf, _ => pinf
  | ninf, ninf => nan
  | ninf, _ => ninf
  | num _, pinf => ninf
  | num _, ninf => pinf
  | num a, num b => num (qsub a b)

/-- Multiplication with IEEE propagation (`0 * inf = NaN`). -/
def PVal.mul : PVal → PVal → PVal
  | nan, _ => nan
  | _, nan => nan
  | num a, num b => num (qmul a b)
  | num a, pinf => if 0 < a then pinf else if a < 0 then ninf else nan
  | num a, ninf => if 0 < a then ninf else if a < 0 then pinf else nan
  | pinf, num b => if 0 < b then pinf else if b < 0 then ninf else nan
  | ninf, num b => if 0 < b then ninf else if b < 0 then pinf else nan
  | pinf, pinf => pinf
  | pinf, ninf => ninf
  | ninf, pinf => ninf
  | ninf, ninf => pinf

/-- Division with IEEE propagation: `x / 0` is `NaN` when `x = 0` and a
signed infinity otherwise, exactly the behaviour numpy gives the script's
growth-rate formulas when the base is zero. -/
def PVal.div : PVal → PVal → PVal
  | nan, _ => nan
  | _, nan => nan
  | num a, num b =>
      if b = 0 then (if a = 0 then nan else if 0 < a then pinf else ninf)
      else num (qdiv a b)
  | num _, pinf => num 0
  | num _, ninf => num 0
  | pinf, num b => if 0 ≤ b then pinf else ninf
  | ninf, num b => if 0 ≤ b then ninf else pinf
  | pinf, _ => nan
  | ninf, _ => nan

/-- Round half to even to an integer, the rounding `Series.round` uses. -/
def rhe (q : ℚ) : ℤ :=
  let f := ratFloor q
  let r := qsub q (qOfInt f)
  if r < mkRat 1 2 then f
  else if mkRat 1 2 < r then f + 1
  else if f % 2 = 0 then f else f + 1

/-- Round half to even at two decimal places, as `.round(2)` does. -/
def round2q (q : ℚ) : ℚ := mkRat (rhe (qmul q 100)) 100

/-- Apply `.round(2)` to a pandas value; `NaN` and infinities round to themselves. -/
def PVal.round2 : PVal → PVal
  | num a => num (round2q a)
  | v => v

/-- Numeric content of a pandas value, with `NaN` contributing 0.  Composed
with `toNumeric` this is the per-element contribution to a pandas sum with
its default `skipna=True` (infinities never arise from `toNumeric`). -/
def numOrZero : PVal → ℚ
  | .num q => q
  | _ => 0

/-- A spreadsheet cell: empty (pandas `NaN`), a number, or a string. -/
inductive Value where
  | null
  | num (q : ℚ)
  | str (s : String)
deriving DecidableEq, Repr

/-- Numeric value of a non-empty all-digit character list. -/
def parseDigits (cs : List Char) : Option ℕ :=
  if cs ≠ [] ∧ cs.all Char.isDigit then
    some (cs.foldl (fun a c => 10 * a + (c.toNat - 48)) 0)
  else none

/-- Parse an (optionally negated) integer numeral; any other string fails.
This models the numeral forms `pd.to_numeric` accepts on the inputs this
development exercises; strings such as `"not_a_number"` parse to `none`. -/
def parseNum? (s : String) : Option ℚ :=
  match s.data with
  | '-' :: rest => (parseDigits rest).map (fun n => -(n : ℚ))
  | cs => (parseDigits cs).map (fun n => (n : ℚ))

/-- Embedding of `pd.to_numeric(x, errors="coerce")` on one cell: numbers
pass through, empty cells and unparseable strings become `NaN`. -/
def toNumeric : Value → PVal
  | .null => .nan
  | .num q => .num q
  | .str s =>
      match parseNum? s with
      | some q => .num q
      | none => .nan

/-- Contribution of one cell to a pandas groupby sum: coerce, skip `NaN` as 0. -/
def coerceQ (v : Value) : ℚ := numOrZero (toNumeric v)

/-- Injection of cells into a lexicographic product, used only to transport
a linear order onto `Value` so that groupby keys can be sorted. -/
def Value.toLexRep : Value → ℕ ×ₗ (ℚ ×ₗ List Char)
  | .null => toLex (0, toLex ((0 : ℚ), []))
  | .num q => toLex (1, toLex (q, []))
  | .str s => toLex (2, toLex ((0 : ℚ), s.data))

theorem Value.toLexRep_injective : Function.Injective Value.toLexRep := by
  intro a b h
  cases a <;> cases b <;>
    simp only [Value.toLexRep, toLex_inj, Prod.mk.injEq] at h <;> simp_all
  exact congrArg String.mk h

instance : LinearOrder Value := LinearOrder.lift' Value.toLexRep Value.toLexRep_injective

/-- One row of an uploaded sheet, with the columns `report.py` reads. -/
structure Record where
  GMV : Value
  region : Value
  Supplier : Value
  product_name : Value
  sub_cat : Value
  Restaurant_id : Value
  Restaurant_name : Value
  Account_email : Value
  Week : Value
  Weight : Value
  unit_price : Value
deriving DecidableEq, Repr

/-- A record whose cells are all empty, convenient for building examples. -/
def blank : Record :=
  ⟨.null, .null, .null, .null, .null, .null, .null, .null, .null, .null, .null⟩

/-- A dataset is one uploaded sheet: an ordered list of rows. -/
def Dataset : Type := List Record

/-- The distinct grouping keys of a dataset, sorted ascending: rows whose
key is null are dropped (`groupby` default `dropna=True`), and the group
keys are emitted in ascending order (`sort=True` default). -/
def aggKeys {κ : Type} [LinearOrder κ] (key : Record → Option κ)
    (d : List Record) : List κ :=
  List.insertionSort (· ≤ ·) (d.filterMap key).dedup

/-- The sum of the coerced measure over one group, pandas `skipna` style. -/
def aggSum {κ : Type} [DecidableEq κ] (key : Record → Option κ)
    (meas : Record → Value) (d : List Record) (k : κ) : ℚ :=
  qsum ((d.filter (fun r => decide (key r = some k))).map (fun r => coerceQ (meas r)))

/-- Embedding of `df.groupby(keys)[measure].sum()`: the ascending list of
non-null keys paired with each group's `skipna` sum. -/
def aggregate {κ : Type} [LinearOrder κ] (key : Record → Option κ)
    (meas : Record → Value) (d : List Record) : List (κ × ℚ) :=
  (aggKeys key d).map (fun k => (k, aggSum key meas d k))

/-- Single-column grouping key; a null cell means the row is dropped. -/
def keyVal (f : Record → Value) : Record → Option Value :=
  fun r => if f r = Value.null then none else some (f r)

/-- Two-column grouping key; a null in either column drops the row. -/
def keyVal2 (f g : Record → Value) : Record → Option (Value ×ₗ Value) :=
  fun r =>
    if f r = Value.null ∨ g r = Value.null then none
    else some (toLex (f r, g r))

/-- Lookup of a key in an aggregate table, as the merge machinery aligns rows. -/
def lookupQ {κ : Type} [DecidableEq κ] (k : κ) (t : List (κ × ℚ)) : Option ℚ :=
  (t.find? (fun p => decide (p.1 = k))).map Prod.snd

/-- Embedding of `pd.merge(A, B, on=keys, how="outer")` of two aggregate
tables (lines 131-137): every row of `A` aligned with `B`'s value for the
same key when present, followed by the rows of `B` whose key `A` lacks;
a missing side is `none` (pandas `NaN`). -/
def mergeOuter {κ : Type} [DecidableEq κ] (A B : List (κ × ℚ)) :
    List (κ × Option ℚ × Option ℚ) :=
  A.map (fun p => (p.1, some p.2, lookupQ p.1 B)) ++
    (B.filter (fun p => (lookupQ p.1 A).isNone)).map (fun p => (p.1, none, some p.2))

/-- One row of the products comparison table of lines 131-156. -/
structure PRow (κ : Type) where
  key : κ
  lastGMV : ℚ
  thisGMV : ℚ
  diff : ℚ
  growth : ℚ
deriving DecidableEq, Repr

/-- The `.replace(0, float("nan"))` guard of line 150 applied to the
last-week measure before it is used as the growth base. -/
def replace0nan (a : ℚ) : PVal := if a = 0 then PVal.nan else PVal.num a

/-- Derived columns of the products comparison, computed from the two
(already `fillna(0)`-filled) measures exactly as lines 143-151 do:
`Difference = round2(b - a)` and
`Growth = round2(fillna0(Difference / replace(a, 0 -> nan) * 100))`. -/
def prowOf {κ : Type} (k : κ) (a b : ℚ) : PRow κ :=
  { key := k, lastGMV := a, thisGMV := b, diff := round2q (qsub b a),
    growth := round2q (numOrZero
      (((PVal.num (round2q (qsub b a))).div (replace0nan a)).mul (PVal.num 100))) }

/-- Embedding of the supplier-product comparison of lines 121-159: outer
merge of the two aggregates, `fillna(0)` on both measures, then the
difference and growth columns. -/
def productsComparison {κ : Type} [DecidableEq κ] (A B : List (κ × ℚ)) :
    List (PRow κ) :=
  (mergeOuter A B).map (fun t => prowOf t.1 (t.2.1.getD 0) (t.2.2.getD 0))

/-- A present measure as a pandas value; a missing one is `NaN`. -/
def pvalOf : Option ℚ → PVal
  | some q => PVal.num q
  | none => PVal.nan

/-- Embedding of `pd.concat([A, B], axis=1)` on two aggregate tables: the
index of the result is the sorted union of the two key sets and a side
missing a key holds `NaN`. -/
def concatOuter {κ : Type} [LinearOrder κ] (A B : List (κ × ℚ)) :
    List (κ × PVal × PVal) :=
  (List.insertionSort (· ≤ ·) (A.map Prod.fst ++ B.map Prod.fst).dedup).map
    (fun k => (k, pvalOf (lookupQ k A), pvalOf (lookupQ k B)))

/-- Embedding of the subcategory comparison of lines 315-328: concat the
two aggregates and append `Growth = ((this - last) / last * 100).round(2)`
with no `fillna`, so `NaN`/infinities reach the output unreplaced. -/
def subcatComparison {κ : Type} [LinearOrder κ] (A B : List (κ × ℚ)) :
    List (κ × PVal × PVal × PVal) :=
  (concatOuter A B).map (fun t =>
    (t.1, t.2.1, t.2.2,
      (((t.2.2.sub t.2.1).div t.2.1).mul (PVal.num 100)).round2))

/-- The subcategory comparison table the script renders, as a function of
the two uploaded datasets (groupby of lines 315-316 feeding lines 318-326). -/
def subcatTable (dlast dthis : List Record) : List (Value × PVal × PVal × PVal) :=
  subcatComparison
    (aggregate (keyVal (fun r => r.sub_cat)) (fun r => r.GMV) dlast)
    (aggregate (keyVal (fun r => r.sub_cat)) (fun r => r.GMV) dthis)

/-- The supplier-product comparison table the script renders, as a function
of the two uploaded datasets (lines 121-159). -/
def productsTable (dlast dthis : List Record) : List (PRow (Value ×ₗ Value)) :=
  productsComparison
    (aggregate (keyVal2 (fun r => r.Supplier) (fun r => r.product_name))
      (fun r => r.GMV) dlast)
    (aggregate (keyVal2 (fun r => r.Supplier) (fun r => r.product_name))
      (fun r => r.GMV) dthis)

/-- Embedding of lines 379-382: the set difference of the distinct
last-week restaurant ids and the distinct this-week restaurant ids. -/
def notReorderedIds (dlast dthis : List Record) : List Value :=
  (dlast.map (fun r => r.Restaurant_id)).dedup.filter
    (fun i => decide (i ∉ dthis.map (fun r => r.Restaurant_id)))

/-- Embedding of line 383: the last-week rows whose restaurant id lies in
that set difference; the did-not-reorder summary of lines 385-388 is the
`Account_email` groupby of exactly these rows. -/
def notReorderedDf (dlast dthis : List Record) : List Record :=
  dlast.filter (fun r => decide (r.Restaurant_id ∈ notReorderedIds dlast dthis))

/-- The grouped did-not-reorder summary of lines 385-388 (its GMV column). -/
def notReorderedSummary (dlast dthis : List Record) : List (Value × ℚ) :=
  aggregate (keyVal (fun r => r.Account_email)) (fun r => r.GMV)
    (notReorderedDf dlast dthis)

/-- Embedding of `df["GMV"].round(0).astype(int)` on one cell (lines
924-925): a numeric cell is rounded half-to-even to an integer; the real
script raises on any other cell, which the ingestion theorems exclude by
hypothesis. -/
def roundCell : Value → Value
  | .num q => .num (qOfInt (rhe q))
  | v => v

/-- Per-record effect of the module-level ingestion rounding of lines 924-925. -/
def ingestRecord (r : Record) : Record := { r with GMV := roundCell r.GMV }

/-- The dataset the analysis functions actually receive: every record's GMV
rounded to an integer before any aggregation happens. -/
def ingest (d : List Record) : List Record := d.map ingestRecord

/-- Rounding applied after summation instead, the policy the specification
prescribes: aggregate the raw dataset, then round each group sum once. -/
def roundAfterSum (d : List Record) : List (Value × ℚ) :=
  (aggregate (keyVal (fun r => r.region)) (fun r => r.GMV) d).map
    (fun p => (p.1, qOfInt (rhe p.2)))

/-- Embedding of line 659: `df_last_week["Week"] = "Last Week"` stamps the
week label onto every row of the caller's dataframe. -/
def setWeekLast (r : Record) : Record := { r with Week := Value.str "Last Week" }

/-- The in-place effect the `Customers` function has on the caller's
last-week dataframe object (line 659). -/
def customersWeekEffect (d : List Record) : List Record := d.map setWeekLast

/-- The order the specification claims for every output table: descending
by the summed measure, ties broken by ascending key. -/
def claimOrder {κ : Type} [LinearOrder κ] (p q : κ × ℚ) : Prop :=
  q.2 < p.2 ∨ (p.2 = q.2 ∧ p.1 ≤ q.1)

instance {κ : Type} [LinearOrder κ] : DecidableRel (@claimOrder κ _) := fun p q =>
  decidable_of_iff (q.2 < p.2 ∨ (p.2 = q.2 ∧ p.1 ≤ q.1)) Iff.rfl

/-! Helper lemmas about the embedded operations. -/

@[simp] theorem prowOf_key {κ : Type} (k : κ) (a b : ℚ) : (prowOf k a b).key = k := rfl

@[simp] theorem prowOf_lastGMV {κ : Type} (k : κ) (a b : ℚ) : (prowOf k a b).lastGMV = a := rfl

theorem lookupQ_eq_none {κ : Type} [DecidableEq κ] (k : κ) (t : List (κ × ℚ)) :
    lookupQ k t = none ↔ k ∉ t.map Prod.fst := by
  rw [lookupQ, Option.map_eq_none', List.find?_eq_none]
  simp only [decide_eq_true_eq, List.mem_map, not_exists]
  constructor
  · rintro h p ⟨hp, rfl⟩
    exact h p hp rfl
  · rintro h p hp rfl
    exact h p ⟨hp, rfl⟩

theorem lookupQ_isNone {κ : Type} [DecidableEq κ] (k : κ) (t : List (κ × ℚ)) :
    (lookupQ k t).isNone = true ↔ k ∉ t.map Prod.fst := by
  rw [Option.isNone_iff_eq_none, lookupQ_eq_none]

theorem mem_aggKeys {κ : Type} [LinearOrder κ] (key : Record → Option κ)
    (d : List Record) (k : κ) :
    k ∈ aggKeys key d ↔ some k ∈ d.map key := by
  rw [aggKeys, (List.perm_insertionSort _ _).mem_iff, List.mem_dedup,
    List.mem_filterMap]
  simp [List.mem_map]

theorem aggKeys_nodup {κ : Type} [LinearOrder κ] (key : Record → Option κ)
    (d : List Record) : (aggKeys key d).Nodup :=
  ((List.perm_insertionSort _ _).nodup_iff).mpr (List.nodup_dedup _)

theorem aggKeys_sorted {κ : Type} [LinearOrder κ] (key : Record → Option κ)
    (d : List Record) : List.Sorted (· ≤ ·) (aggKeys key d) :=
  List.sorted_insertionSort _ _

theorem aggSum_eq_sum {κ : Type} [DecidableEq κ] (key : Record → Option κ)
    (meas : Record → Value) (d : List Record) (k : κ) :
    aggSum key meas d k =
      ((d.filter (fun r => decide (key r = some k))).map
        (fun r => coerceQ (meas r))).sum :=
  qsum_eq _

theorem aggSum_cons {κ : Type} [DecidableEq κ] (key : Record → Option κ)
    (meas : Record → Value) (r : Record) (d : List Record) (k : κ) :
    aggSum key meas (r :: d) k =
      (if key r = some k then coerceQ (meas r) else 0) + aggSum key meas d k := by
  rw [aggSum_eq_sum, aggSum_eq_sum, List.filter_cons]
  by_cases h : key r = some k
  · simp [h]
  · simp [h]

theorem aggregate_keys {κ : Type} [LinearOrder κ]
    (key : Record → Option κ) (meas : Record → Value) (d : List Record) :
    (aggregate key meas d).map Prod.fst = aggKeys key d := by
  rw [aggregate, List.map_map]
  exact List.map_id _

theorem sum_map_add {α : Type} (f g : α → ℚ) (l : List α) :
    (l.map (fun x => f x + g x)).sum = (l.map f).sum + (l.map g).sum := by
  induction l with
  | nil => simp
  | cons a l ih => simp only [List.map_cons, List.sum_cons, ih]; ring

theorem sum_map_ite_of_not_mem {κ : Type} [DecidableEq κ] (K : List κ) (k0 : κ)
    (c : ℚ) (h : k0 ∉ K) :
    (K.map (fun k => if k0 = k then c else 0)).sum = 0 := by
  induction K with
  | nil => simp
  | cons a K ih =>
    simp only [List.mem_cons, not_or] at h
    simp only [List.map_cons, List.sum_cons, if_neg h.1, ih h.2, zero_add]

theorem sum_map_ite_of_mem {κ : Type} [DecidableEq κ] (K : List κ) (k0 : κ)
    (c : ℚ) (hK : K.Nodup) (h : k0 ∈ K) :
    (K.map (fun k => if k0 = k then c else 0)).sum = c := by
  induction K with
  | nil => cases h
  | cons a K ih =>
    rcases List.mem_cons.mp h with h1 | h1
    · subst h1
      have hnot : k0 ∉ K := (List.nodup_cons.mp hK).1
      rw [List.map_cons, List.sum_cons, if_pos rfl,
        sum_map_ite_of_not_mem K k0 c hnot, add_zero]
    · have hne : k0 ≠ a := by
        rintro rfl
        exact (List.nodup_cons.mp hK).1 h1
      simp only [List.map_cons, List.sum_cons, if_neg hne,
        ih (List.nodup_cons.mp hK).2 h1, zero_add]

theorem sum_over_keys {κ : Type} [DecidableEq κ] (key : Record → Option κ)
    (meas : Record → Value) (K : List κ) (hK : K.Nodup) :
    ∀ d : List Record, (∀ r ∈ d, ∃ k, key r = some k ∧ k ∈ K) →
      (K.map (fun k => aggSum key meas d k)).sum =
        (d.map (fun r => coerceQ (meas r))).sum := by
  intro d
  induction d with
  | nil =>
    intro _
    have : ∀ k ∈ K, aggSum key meas ([] : List Record) k = 0 := by
      intro k _
      rw [aggSum_eq_sum]; simp
    rw [List.map_congr_left this]
    simp
  | cons r d ih =>
    intro hcov
    obtain ⟨k0, hk0, hk0K⟩ := hcov r (List.mem_cons_self r d)
    have step : ∀ k ∈ K, aggSum key meas (r :: d) k =
        (if k0 = k then coerceQ (meas r) else 0) + aggSum key meas d k := by
      intro k _
      rw [aggSum_cons]
      congr 1
      exact if_congr (by rw [hk0]; exact Option.some_inj) rfl rfl
    rw [List.map_congr_left step, sum_map_add, sum_map_ite_of_mem K k0 _ hK hk0K,
      ih (fun r' hr' => hcov r' (List.mem_cons_of_mem r hr'))]
    simp

theorem sum_int_valued (l : List ℚ) (h : ∀ q ∈ l, ∃ z : ℤ, q = (z : ℚ)) :
    ∃ z : ℤ, l.sum = (z : ℚ) := by
  induction l with
  | nil => exact ⟨0, by simp⟩
  | cons a l ih =>
    obtain ⟨za, hza⟩ := h a (List.mem_cons_self a l)
    obtain ⟨zl, hzl⟩ := ih (fun q hq => h q (List.mem_cons_of_mem a hq))
    exact ⟨za + zl, by simp [hza, hzl]⟩

theorem round2q_zero : round2q 0 = 0 := by decide

theorem productsComparison_keys {κ : Type} [DecidableEq κ] (A B : List (κ × ℚ)) :
    (productsComparison A B).map PRow.key =
      A.map Prod.fst ++
        (B.filter (fun p => (lookupQ p.1 A).isNone)).map Prod.fst := by
  rw [productsComparison, mergeOuter]
  simp only [List.map_append, List.map_map]
  rfl

/-! Concrete example rows used by the witnesses and counterexamples. -/

/-- Row with supplier S, product P, subcategory C and GMV 0. -/
def exRowZero : Record := { blank with
  Supplier := .str "S", product_name := .str "P", sub_cat := .str "C", GMV := .num 0 }

/-- Row in region North with GMV 100. -/
def exRowNorth1 : Record := { blank with region := .str "North", GMV := .num 100 }

/-- Row in region North with GMV 50. -/
def exRowNorth2 : Record := { blank with region := .str "North", GMV := .num 50 }

/-- Row in region South with GMV 30. -/
def exRowSouth : Record := { blank with region := .str "South", GMV := .num 30 }

/-- Row in region A with GMV 10. -/
def exRowA : Record := { blank with region := .str "A", GMV := .num 10 }

/-- Row in region B with GMV 100. -/
def exRowB : Record := { blank with region := .str "B", GMV := .num 100 }

/-- Row in region A with the fractional GMV one half. -/
def exRowHalf : Record := { blank with region := .str "A", GMV := .num (mkRat 1 2) }

/-- Row with a null region cell and GMV 100. -/
def exRowNullKey : Record := { blank with GMV := .num 100 }

/-- Row whose GMV cell is the unparseable string used by the spec example. -/
def exRowBadGMV : Record :=
  { blank with sub_cat := .str "C", GMV := .str "not_a_number" }

/-! Claim theorems. -/

/-- Claim C4, counterexample: the region aggregate of a concrete two-region
dataset is not ordered descending by the summed measure with key tie-break,
refuting the claimed sort order (the table comes out ascending by region
name instead: A with 10 before B with 100). -/
theorem C4_sort_order_counterexample :
    ¬ List.Sorted claimOrder
      (aggregate (keyVal (fun r => r.region)) (fun r => r.GMV) [exRowA, exRowB]) := by
  decide

/-- Claim C4, amended: every groupby aggregate and every concat-based
comparison table is ordered ascending by the grouping key (pandas groupby
`sort=True` and index-union alignment), not descending by measure. -/
theorem C4_sort_order_amended {κ : Type} [LinearOrder κ]
    (key : Record → Option κ) (meas : Record → Value) (d : List Record)
    (A B : List (κ × ℚ)) :
    List.Sorted (· ≤ ·) ((aggregate key meas d).map Prod.fst) ∧
    List.Sorted (· ≤ ·) ((concatOuter A B).map Prod.fst) := by
  constructor
  · rw [aggregate_keys]
    exact aggKeys_sorted key d
  · have h : (concatOuter A B).map Prod.fst =
        List.insertionSort (· ≤ ·) ((A.map Prod.fst ++ B.map Prod.fst).dedup) := by
      rw [concatOuter, List.map_map]
      exact List.map_id _
    rw [h]
    exact List.sorted_insertionSort _ _

/-- Claim C5, counterexample: for a dataset whose single record has a null
grouping key, groupby drops the row entirely (pandas `dropna=True`), the
aggregate is empty, and the claimed tolerance `|0 - 100| ≤ 0.5 * 0` fails. -/
theorem C5_sum_conservation_counterexample :
    ¬ (|((aggregate (keyVal (fun r => r.region)) (fun r => r.GMV)
          [exRowNullKey]).map Prod.snd).sum -
        ([exRowNullKey].map (fun r => coerceQ r.GMV)).sum| ≤
        (1/2 : ℚ) * ((aggregate (keyVal (fun r => r.region)) (fun r => r.GMV)
          [exRowNullKey]).length : ℚ)) := by
  have h1 : aggregate (keyVal (fun r => r.region)) (fun r => r.GMV)
      [exRowNullKey] = [] := by decide
  have h2 : [exRowNullKey].map (fun r => coerceQ r.GMV) = [100] := by decide
  rw [h1, h2]
  simp

/-- Claim C5, amended: when every record has a non-null grouping key, the
sum of the aggregate measures equals the sum of the coerced measure over
the records exactly, hence in particular within the claimed tolerance of
half a unit per group; records with a null key are dropped by groupby. -/
theorem C5_sum_conservation_amended {κ : Type} [LinearOrder κ]
    (key : Record → Option κ) (meas : Record → Value) (d : List Record)
    (h : ∀ r ∈ d, key r ≠ none) :
    ((aggregate key meas d).map Prod.snd).sum =
      (d.map (fun r => coerceQ (meas r))).sum ∧
    |((aggregate key meas d).map Prod.snd).sum -
        (d.map (fun r => coerceQ (meas r))).sum| ≤
      (1/2 : ℚ) * ((aggregate key meas d).length : ℚ) := by
  have hsnd : (aggregate key meas d).map Prod.snd =
      (aggKeys key d).map (fun k => aggSum key meas d k) := by
    rw [aggregate, List.map_map]
    rfl
  have heq : ((aggregate key meas d).map Prod.snd).sum =
      (d.map (fun r => coerceQ (meas r))).sum := by
    rw [hsnd]
    apply sum_over_keys key meas (aggKeys key d) (aggKeys_nodup key d)
    intro r hr
    cases hk : key r with
    | none => exact absurd hk (h r hr)
    | some k =>
      exact ⟨k, rfl, (mem_aggKeys key d k).mpr (List.mem_map.mpr ⟨r, hr, hk⟩)⟩
  refine ⟨heq, ?_⟩
  rw [heq, sub_self, abs_zero]
  positivity

/-- Witness for the amended claim C5 at the spec's own example dataset
(North 100, North 50, South 30 grouped by region). -/
theorem C5_sum_conservation_amended_witness :
    (∀ r ∈ [exRowNorth1, exRowNorth2, exRowSouth],
      keyVal (fun x => x.region) r ≠ none) ∧
    (((aggregate (keyVal (fun x => x.region)) (fun x => x.GMV)
        [exRowNorth1, exRowNorth2, exRowSouth]).map Prod.snd).sum =
      ([exRowNorth1, exRowNorth2, exRowSouth].map (fun r => coerceQ r.GMV)).sum ∧
    |((aggregate (keyVal (fun x => x.region)) (fun x => x.GMV)
        [exRowNorth1, exRowNorth2, exRowSouth]).map Prod.snd).sum -
        ([exRowNorth1, exRowNorth2, exRowSouth].map (fun r => coerceQ r.GMV)).sum| ≤
      (1/2 : ℚ) * ((aggregate (keyVal (fun x => x.region)) (fun x => x.GMV)
        [exRowNorth1, exRowNorth2, exRowSouth]).length : ℚ)) :=
  ⟨by decide, C5_sum_conservation_amended _ _ _ (by decide)⟩

/-- Claim C6, counterexample: a record whose region cell is null occurs in
the dataset, so the null key tuple is among the distinct key tuples of the
records, but groupby drops it (pandas `dropna=True`) and the aggregate's
key set is empty — the claimed set equality fails. -/
theorem C6_group_completeness_counterexample :
    ¬ (∀ v : Value,
        v ∈ (aggregate (keyVal (fun r => r.region)) (fun r => r.GMV)
            [exRowNullKey]).map Prod.fst ↔
        v ∈ ([exRowNullKey].map (fun r => r.region)).dedup) := by
  intro h
  have h2 := (h Value.null).mpr (by decide)
  exact absurd h2 (by decide)

/-- Claim C6, amended: the key set of an aggregate equals the set of
distinct non-null key tuples of the records — no non-null group is dropped
and no group is invented, but rows whose key is null are excluded. -/
theorem C6_group_completeness_amended {κ : Type} [LinearOrder κ]
    (key : Record → Option κ) (meas : Record → Value) (d : List Record) (k : κ) :
    k ∈ (aggregate key meas d).map Prod.fst ↔ some k ∈ d.map key := by
  rw [aggregate_keys]
  exact mem_aggKeys key d k

/-- Claim C7: aggregation is invariant under permutation of the input
records — same keys, same sums, same output order, because group keys are
emitted sorted and each group sum is a multiset sum. -/
theorem C7_determinism {κ : Type} [LinearOrder κ]
    (key : Record → Option κ) (meas : Record → Value) (d d' : List Record)
    (h : d.Perm d') : aggregate key meas d = aggregate key meas d' := by
  have hkeys : aggKeys key d = aggKeys key d' := by
    refine List.eq_of_perm_of_sorted ?_ (aggKeys_sorted key d) (aggKeys_sorted key d')
    unfold aggKeys
    have p1 := List.perm_insertionSort (· ≤ ·) (d.filterMap key).dedup
    have p2 := List.perm_insertionSort (· ≤ ·) (d'.filterMap key).dedup
    exact p1.trans (((h.filterMap key).dedup).trans p2.symm)
  have hf : (fun k => (k, aggSum key meas d k)) =
      (fun k => (k, aggSum key meas d' k)) := by
    funext k
    have hs : aggSum key meas d k = aggSum key meas d' k := by
      rw [aggSum_eq_sum, aggSum_eq_sum]
      exact ((h.filter _).map _).sum_eq
    rw [hs]
  rw [aggregate, aggregate, hkeys, hf]

/-- Witness for claim C7 at a concrete three-row dataset and a rotation of it. -/
theorem C7_determinism_witness :
    [exRowA, exRowB, exRowNorth1].Perm [exRowB, exRowNorth1, exRowA] ∧
    aggregate (keyVal (fun r => r.region)) (fun r => r.GMV)
        [exRowA, exRowB, exRowNorth1] =
      aggregate (keyVal (fun r => r.region)) (fun r => r.GMV)
        [exRowB, exRowNorth1, exRowA] :=
  ⟨by decide, C7_determinism _ _ _ _ (by decide)⟩

/-- Claim C3, counterexample: `pd.to_numeric(..., errors="coerce")` maps the
spec's example value `"not_a_number"` to `NaN`, not to the claimed `0.0`
(the group sum then skips the `NaN`; no coercion-warning counter exists
anywhere in the script, so the observability part of the claim has no
code realizing it). -/
theorem C3_coercion_counterexample :
    toNumeric (Value.str "not_a_number") = PVal.nan ∧ PVal.nan ≠ PVal.num 0 := by
  decide

/-- Claim C3, amended: a record whose measure cell is an unparseable string
is coerced to `NaN`, which every group sum skips — the record contributes
nothing, the aggregation is a total function that still completes, and no
coercion counter is maintained. -/
theorem C3_coercion_amended {κ : Type} [DecidableEq κ] (key : Record → Option κ)
    (meas : Record → Value) (r : Record) (d : List Record) (k : κ) (s : String)
    (hs : parseNum? s = none) (hm : meas r = Value.str s) :
    aggSum key meas (r :: d) k = aggSum key meas d k := by
  rw [aggSum_cons]
  have hc : coerceQ (meas r) = 0 := by
    rw [hm, coerceQ, toNumeric]
    simp [hs, numOrZero]
  rw [hc]
  simp

/-- Witness for the amended claim C3: the bad-GMV row contributes nothing
to the sum of its own group C. -/
theorem C3_coercion_amended_witness :
    parseNum? "not_a_number" = none ∧
    exRowBadGMV.GMV = Value.str "not_a_number" ∧
    aggSum (keyVal (fun x => x.sub_cat)) (fun x => x.GMV)
        (exRowBadGMV :: [exRowZero]) (Value.str "C") =
      aggSum (keyVal (fun x => x.sub_cat)) (fun x => x.GMV)
        [exRowZero] (Value.str "C") :=
  ⟨by decide, rfl, C3_coercion_amended _ _ _ _ _ _ (by decide) rfl⟩

/-- Claim C8, counterexample: the script rounds each record's GMV at
ingestion (`round(0).astype(int)`, lines 924-925) before any summation;
for two records of 0.5 in one group the produced aggregate is 0, whereas
rounding once after summation (the claimed policy) gives 1. -/
theorem C8_rounding_counterexample :
    aggregate (keyVal (fun r => r.region)) (fun r => r.GMV)
        (ingest [exRowHalf, exRowHalf]) = [(Value.str "A", 0)] ∧
    roundAfterSum [exRowHalf, exRowHalf] = [(Value.str "A", 1)] ∧
    aggregate (keyVal (fun r => r.region)) (fun r => r.GMV)
        (ingest [exRowHalf, exRowHalf]) ≠ roundAfterSum [exRowHalf, exRowHalf] := by
  refine ⟨by decide, by decide, by decide⟩

/-- Claim C8, amended: rounding to whole currency units happens once per
record at ingestion, before aggregation; the group sums of the ingested
dataset are sums of already-integer values and are never rounded again
(every aggregate measure is an integer). -/
theorem C8_rounding_amended {κ : Type} [LinearOrder κ] (key : Record → Option κ)
    (d : List Record) (h : ∀ r ∈ d, ∃ q : ℚ, r.GMV = Value.num q) :
    ∀ p ∈ aggregate key (fun r => r.GMV) (ingest d), ∃ z : ℤ, p.2 = (z : ℚ) := by
  intro p hp
  obtain ⟨k, _hk, rfl⟩ := List.mem_map.mp hp
  show ∃ z : ℤ, aggSum key (fun r => r.GMV) (ingest d) k = (z : ℚ)
  rw [aggSum_eq_sum]
  apply sum_int_valued
  intro q hq
  obtain ⟨r', hr', rfl⟩ := List.mem_map.mp hq
  have hr'd : r' ∈ ingest d := (List.mem_filter.mp hr').1
  obtain ⟨r, hrd, rfl⟩ := List.mem_map.mp hr'd
  obtain ⟨q0, hq0⟩ := h r hrd
  refine ⟨rhe q0, ?_⟩
  rw [ingestRecord]
  show coerceQ (roundCell r.GMV) = _
  rw [hq0, roundCell, coerceQ, toNumeric]
  simp [numOrZero]

/-- Witness for the amended claim C8 at a concrete all-numeric dataset. -/
theorem C8_rounding_amended_witness :
    (∀ r ∈ [exRowHalf, exRowB], ∃ q : ℚ, r.GMV = Value.num q) ∧
    ∀ p ∈ aggregate (keyVal (fun r => r.region)) (fun r => r.GMV)
        (ingest [exRowHalf, exRowB]), ∃ z : ℤ, p.2 = (z : ℚ) := by
  have h : ∀ r ∈ [exRowHalf, exRowB], ∃ q : ℚ, r.GMV = Value.num q := by
    intro r hr
    rcases List.mem_cons.mp hr with h1 | h1
    · exact ⟨mkRat 1 2, by rw [h1]; rfl⟩
    · rcases List.mem_cons.mp h1 with h2 | h2
      · exact ⟨100, by rw [h2]; rfl⟩
      · cases h2
  exact ⟨h, C8_rounding_amended _ _ h⟩

/-- Claim C9, counterexample: calling the `Customers` section on a dataset
changes the caller's last-week dataframe object — line 659 writes a Week
column through to it, so the input is not left unchanged. -/
theorem C9_mutation_counterexample : customersWeekEffect [blank] ≠ [blank] := by
  decide

/-- Claim C9, amended: the section functions do mutate their caller's
dataframes in place — `analysis`/`pricing` overwrite measure columns with
coerced values and `Customers` stamps a Week label column — so any
last-week dataset not already carrying that label is changed by the call. -/
theorem C9_mutation_amended (d : List Record) (h1 : d ≠ [])
    (h2 : ∀ r ∈ d, r.Week ≠ Value.str "Last Week") :
    customersWeekEffect d ≠ d := by
  cases d with
  | nil => exact absurd rfl h1
  | cons r t =>
    intro he
    rw [customersWeekEffect, List.map_cons] at he
    injection he with hhead _htail
    have hW := congrArg Record.Week hhead
    exact h2 r (List.mem_cons_self r t) hW.symm

/-- Witness for the amended claim C9 at the all-null single-row dataset. -/
theorem C9_mutation_amended_witness :
    ([blank] : List Record) ≠ [] ∧
    (∀ r ∈ [blank], r.Week ≠ Value.str "Last Week") ∧
    customersWeekEffect [blank] ≠ [blank] :=
  ⟨by decide, by decide, C9_mutation_amended [blank] (by decide) (by decide)⟩

/-- Claim C10: the did-not-reorder table is exactly the set difference on
restaurant ids — a last-week row survives the filter of line 383 if and
only if its id occurs last week and not this week, and an id occurs in the
filtered table (from which the per-account summary of lines 385-388 is
grouped) if and only if it occurs in the last-week data but not the
this-week data; ids present in both weeks or only this week never appear. -/
theorem C10_not_reordered (dlast dthis : List Record) :
    (∀ r : Record, r ∈ notReorderedDf dlast dthis ↔
      r ∈ dlast ∧ r.Restaurant_id ∉ dthis.map (fun x => x.Restaurant_id)) ∧
    (∀ i : Value, i ∈ (notReorderedDf dlast dthis).map (fun x => x.Restaurant_id) ↔
      (i ∈ dlast.map (fun x => x.Restaurant_id) ∧
        i ∉ dthis.map (fun x => x.Restaurant_id))) := by
  have hrow : ∀ r : Record, r ∈ notReorderedDf dlast dthis ↔
      r ∈ dlast ∧ r.Restaurant_id ∉ dthis.map (fun x => x.Restaurant_id) := by
    intro r
    rw [notReorderedDf, List.mem_filter]
    simp only [decide_eq_true_eq]
    constructor
    · rintro ⟨hr, hmem⟩
      refine ⟨hr, ?_⟩
      rw [notReorderedIds, List.mem_filter] at hmem
      simpa using hmem.2
    · rintro ⟨hr, hnot⟩
      refine ⟨hr, ?_⟩
      rw [notReorderedIds, List.mem_filter]
      exact ⟨List.mem_dedup.mpr (List.mem_map.mpr ⟨r, hr, rfl⟩), by simpa using hnot⟩
  refine ⟨hrow, fun i => ?_⟩
  constructor
  · intro hi
    obtain ⟨r, hr, rfl⟩ := List.mem_map.mp hi
    obtain ⟨h1, h2⟩ := (hrow r).mp hr
    exact ⟨List.mem_map.mpr ⟨r, h1, rfl⟩, h2⟩
  · rintro ⟨hi, hnot⟩
    obtain ⟨r, hr, rfl⟩ := List.mem_map.mp hi
    exact List.mem_map.mpr ⟨r, (hrow r).mpr ⟨hr, hnot⟩, rfl⟩

theorem prowOf_growth {κ : Type} (k : κ) (a b : ℚ) :
    (prowOf k a b).growth = round2q (numOrZero
      (((PVal.num (round2q (qsub b a))).div (replace0nan a)).mul (PVal.num 100))) := rfl

/-- Concrete one-row aggregate tables for witnesses. -/
def exTableA : List (Value × ℚ) := [(Value.str "x", 5)]

/-- Concrete one-row aggregate table with a key absent from `exTableA`. -/
def exTableB : List (Value × ℚ) := [(Value.str "y", 7)]

/-- Concrete one-row aggregate table whose only measure is zero. -/
def exTableZ : List (Value × ℚ) := [(Value.str "C", 0)]

/-- Claim C1: in the outer-join products comparison (merge `how="outer"`
then `fillna(0)`, lines 131-151), every key of either input table appears
exactly once among the output rows, a key present only in the last-week
table yields the row computed from `(a, 0)` — its this-week measure is 0
in the difference and growth arithmetic — and a key present only in the
this-week table yields the row computed from `(0, b)`. -/
theorem C1_outer_join_completeness {κ : Type} [DecidableEq κ] (A B : List (κ × ℚ))
    (hA : (A.map Prod.fst).Nodup) (hB : (B.map Prod.fst).Nodup) :
    (∀ k : κ, ((productsComparison A B).map PRow.key).count k =
        (if k ∈ A.map Prod.fst ∨ k ∈ B.map Prod.fst then 1 else 0)) ∧
    (∀ p ∈ A, p.1 ∉ B.map Prod.fst → prowOf p.1 p.2 0 ∈ productsComparison A B) ∧
    (∀ p ∈ B, p.1 ∉ A.map Prod.fst → prowOf p.1 0 p.2 ∈ productsComparison A B) := by
  refine ⟨?_, ?_, ?_⟩
  · intro k
    rw [productsComparison_keys, List.count_append]
    by_cases hkA : k ∈ A.map Prod.fst
    · rw [if_pos (Or.inl hkA)]
      have c1 : (A.map Prod.fst).count k = 1 := List.count_eq_one_of_mem hA hkA
      have c2 : ((B.filter (fun p => (lookupQ p.1 A).isNone)).map Prod.fst).count k
          = 0 := by
        rw [List.count_eq_zero]
        intro hmem
        obtain ⟨p, hpB, rfl⟩ := List.mem_map.mp hmem
        exact absurd hkA ((lookupQ_isNone p.1 A).mp (List.mem_filter.mp hpB).2)
      rw [c1, c2]
    · by_cases hkB : k ∈ B.map Prod.fst
      · rw [if_pos (Or.inr hkB)]
        have c1 : (A.map Prod.fst).count k = 0 := List.count_eq_zero.mpr hkA
        have hsub : List.Sublist
            ((B.filter (fun p => (lookupQ p.1 A).isNone)).map Prod.fst)
            (B.map Prod.fst) := (List.filter_sublist B).map Prod.fst
        have hnodup := hB.sublist hsub
        have hmem : k ∈ (B.filter (fun p => (lookupQ p.1 A).isNone)).map Prod.fst := by
          obtain ⟨p, hpB, rfl⟩ := List.mem_map.mp hkB
          exact List.mem_map.mpr
            ⟨p, List.mem_filter.mpr ⟨hpB, (lookupQ_isNone p.1 A).mpr hkA⟩, rfl⟩
        rw [c1, List.count_eq_one_of_mem hnodup hmem]
      · rw [if_neg (by simp [hkA, hkB])]
        have c1 : (A.map Prod.fst).count k = 0 := List.count_eq_zero.mpr hkA
        have c2 : ((B.filter (fun p => (lookupQ p.1 A).isNone)).map Prod.fst).count k
            = 0 := by
          rw [List.count_eq_zero]
          intro hmem
          obtain ⟨p, hpB, rfl⟩ := List.mem_map.mp hmem
          exact hkB (List.mem_map.mpr ⟨p, (List.mem_filter.mp hpB).1, rfl⟩)
        rw [c1, c2]
  · intro p hpA hpB
    have hlook : lookupQ p.1 B = none := (lookupQ_eq_none p.1 B).mpr hpB
    rw [productsComparison]
    apply List.mem_map.mpr
    refine ⟨(p.1, some p.2, lookupQ p.1 B), ?_, ?_⟩
    · rw [mergeOuter]
      exact List.mem_append_left _ (List.mem_map.mpr ⟨p, hpA, rfl⟩)
    · rw [hlook]
      rfl
  · intro p hpB hpA
    have hlook : lookupQ p.1 A = none := (lookupQ_eq_none p.1 A).mpr hpA
    rw [productsComparison]
    apply List.mem_map.mpr
    refine ⟨(p.1, none, some p.2), ?_, rfl⟩
    rw [mergeOuter]
    apply List.mem_append_right
    exact List.mem_map.mpr ⟨p, List.mem_filter.mpr ⟨hpB, by rw [hlook]; rfl⟩, rfl⟩

/-- Witness for claim C1 on two concrete disjoint one-key tables. -/
theorem C1_outer_join_completeness_witness :
    ((exTableA.map Prod.fst).Nodup ∧ (exTableB.map Prod.fst).Nodup) ∧
    ((∀ k : Value, ((productsComparison exTableA exTableB).map PRow.key).count k =
        (if k ∈ exTableA.map Prod.fst ∨ k ∈ exTableB.map Prod.fst then 1 else 0)) ∧
     (∀ p ∈ exTableA, p.1 ∉ exTableB.map Prod.fst →
        prowOf p.1 p.2 0 ∈ productsComparison exTableA exTableB) ∧
     (∀ p ∈ exTableB, p.1 ∉ exTableA.map Prod.fst →
        prowOf p.1 0 p.2 ∈ productsComparison exTableA exTableB)) :=
  ⟨⟨by decide, by decide⟩,
    C1_outer_join_completeness exTableA exTableB (by decide) (by decide)⟩

/-- Claim C2, counterexample: fed the same single-row datasets (one record
with supplier S, product P, subcategory C and GMV 0 in each week), the
subcategory comparison propagates `NaN` growth from the zero base while
the supplier-product comparison reports growth 0 — two different zero-base
fallback policies inside one run, refuting the claimed uniform policy. -/
theorem C2_zero_base_policy_counterexample :
    (subcatTable [exRowZero] [exRowZero]).map (fun t => t.2.2.2) = [PVal.nan] ∧
    (productsTable [exRowZero] [exRowZero]).map PRow.growth = [(0 : ℚ)] ∧
    PVal.nan ≠ PVal.num 0 :=
  ⟨by decide, by decide, by decide⟩

/-- Claim C2, amended: the zero-base growth policy differs by table. In the
merge-based products comparison (`replace(0, nan)` then `fillna(0)`), a
zero last-week measure always produces growth 0; in the concat-based
subcategory comparison (no `fillna`), a zero-over-zero base produces `NaN`
that reaches the output. -/
theorem C2_zero_base_policy_amended {κ : Type} [LinearOrder κ] (A B : List (κ × ℚ)) :
    (∀ row ∈ productsComparison A B, row.lastGMV = 0 → row.growth = 0) ∧
    (∀ t ∈ subcatComparison A B, t.2.1 = PVal.num 0 → t.2.2.1 = PVal.num 0 →
      t.2.2.2 = PVal.nan) := by
  constructor
  · intro row hrow hlast
    obtain ⟨t, _ht, rfl⟩ := List.mem_map.mp hrow
    have ha : t.2.1.getD 0 = 0 := hlast
    rw [prowOf_growth, ha]
    have hrepl : replace0nan 0 = PVal.nan := by rw [replace0nan, if_pos rfl]
    rw [hrepl]
    exact round2q_zero
  · intro t ht h1 h2
    obtain ⟨u, _hu, rfl⟩ := List.mem_map.mp ht
    have e1 : u.2.1 = PVal.num 0 := h1
    have e2 : u.2.2 = PVal.num 0 := h2
    show (((u.2.2.sub u.2.1).div u.2.1).mul (PVal.num 100)).round2 = PVal.nan
    rw [e1, e2]
    rfl

/-- Witness for the amended claim C2 at concrete zero-measure tables. -/
theorem C2_zero_base_policy_amended_witness :
    ((prowOf (Value.str "C") (0 : ℚ) 0 ∈ productsComparison exTableZ exTableZ ∧
      (prowOf (Value.str "C") (0 : ℚ) 0).lastGMV = 0) ∧
     (prowOf (Value.str "C") (0 : ℚ) 0).growth = 0) ∧
    ((Value.str "C", PVal.num 0, PVal.num 0, PVal.nan) ∈ subcatComparison exTableZ exTableZ ∧
     (Value.str "C", PVal.num 0, PVal.num 0, PVal.nan).2.2.2 = PVal.nan) :=
  ⟨⟨⟨by decide, by decide⟩,
      (C2_zero_base_policy_amended exTableZ exTableZ).1 _ (by decide) (by decide)⟩,
    ⟨by decide,
      (C2_zero_base_policy_amended exTableZ exTableZ).2 _ (by decide) (by decide)
        (by decide)⟩⟩
